import Mathlib

/-!
Verification of the transcription core of `video_to_mp3.py`: the timestamp
synthesizer (`generate_word_timestamps`), the response reconciliation cascade
inside `transcribe_audio_chunk`, the orchestrator
(`transcribe_audio_with_timestamps`) and the segmenter
(`split_audio_into_chunks`).

The Python code is shallowly embedded: Python dict/list/str/float values that
flow through `json.loads` are modelled by the inductive type `Json` (floats as
rationals, `NaN`/`Infinity` kept as separate constructors); Python operations
that can raise `TypeError`/`AttributeError` return `Option` (`none` models the
exception, which the per-chunk code swallows into a `None` result and which
the orchestrator does not catch).  External effects (the HTTP call, ffmpeg,
the file system) are parameters: a chunk is described by its byte size, the
remote response content (if the transport and envelope succeeded) and the
probed duration (if ffmpeg found one); writing the JSON artifact is modelled
by returning `some` of its content.
-/

attribute [local semireducible] Rat.add Rat.mul Rat.sub Rat.inv

set_option maxRecDepth 40000

namespace VideoTrim

/-! ### Character and list-of-char utilities (Python string semantics) -/

/-- Python `str.strip()` whitespace set (ASCII part). -/
def pyWs (c : Char) : Bool :=
  c = ' ' ∨ c = '\t' ∨ c = '\n' ∨ c = '\r' ∨ c = '\x0b' ∨ c = '\x0c'

/-- JSON whitespace accepted by `json.loads` between tokens. -/
def jsonWs (c : Char) : Bool :=
  c = ' ' ∨ c = '\t' ∨ c = '\n' ∨ c = '\r'

/-- A `\w` word character for `re.findall(r'\b\w+\b', ...)` (ASCII model). -/
def isWordChar (c : Char) : Bool := c.isAlphanum || c = '_'

/-- Characters removed by `re.sub(r'[\x00-\x1f\x7f-\x9f]', '', ...)`. -/
def isCtrlStripped (c : Char) : Bool :=
  c.val ≤ 0x1f || (0x7f ≤ c.val && c.val ≤ 0x9f)

def dropWsJ (cs : List Char) : List Char := cs.dropWhile jsonWs

/-- `lstrip` by a character predicate. -/
def lstripBy (p : Char → Bool) (cs : List Char) : List Char := cs.dropWhile p

/-- `rstrip` by a character predicate. -/
def rstripBy (p : Char → Bool) (cs : List Char) : List Char :=
  (cs.reverse.dropWhile p).reverse

/-- Python `str.strip()` (both ends, whitespace). -/
def pyStrip (cs : List Char) : List Char := rstripBy pyWs (lstripBy pyWs cs)

/-- Does `pat` occur as a prefix of `cs`? -/
def isPrefixL : List Char → List Char → Bool
  | [], _ => true
  | _ :: _, [] => false
  | p :: ps, c :: cs => p = c && isPrefixL ps cs

/-- Index of the first occurrence of `pat` in `cs` (`str.find`). -/
def findIdxL (pat : List Char) : List Char → Option ℕ
  | [] => if pat.isEmpty then some 0 else none
  | c :: cs =>
    if isPrefixL pat (c :: cs) then some 0
    else (findIdxL pat cs).map (· + 1)

/-- Python `pat in s` substring test. -/
def containsL (pat cs : List Char) : Bool := (findIdxL pat cs).isSome

/-- Python `'pat' in s` on strings. -/
def strContainsSub (pat s : String) : Bool := containsL pat.toList s.toList

/-- Everything after the first occurrence of `pat` (`none` if absent). -/
def afterFirst (pat cs : List Char) : Option (List Char) :=
  (findIdxL pat cs).map (fun i => cs.drop (i + pat.length))

/-- Everything before the first occurrence of `pat` (all of `cs` if absent). -/
def beforeFirst (pat cs : List Char) : List Char :=
  match findIdxL pat cs with
  | some i => cs.take i
  | none => cs

/-- Index of the last occurrence of character `c` (`str.rfind` on one char). -/
def rfindCh (c : Char) (cs : List Char) : Option ℕ :=
  (findIdxL [c] cs.reverse).map (fun i => cs.length - 1 - i)

/-- Number of occurrences of character `c` (`str.count` on one char). -/
def countCh (c : Char) (cs : List Char) : ℕ := (cs.filter (· = c)).length

/-- Python `str.replace(pat, rep)`: left-to-right, non-overlapping.
`fuel` bounds the scan; `replaceAll` below instantiates it with the length. -/
def replaceAllAux (pat rep : List Char) : ℕ → List Char → List Char
  | _, [] => []
  | 0, cs => cs
  | fuel + 1, c :: cs =>
    if pat ≠ [] ∧ isPrefixL pat (c :: cs) then
      rep ++ replaceAllAux pat rep fuel ((c :: cs).drop pat.length)
    else
      c :: replaceAllAux pat rep fuel cs

def replaceAll (pat rep cs : List Char) : List Char :=
  replaceAllAux pat rep cs.length cs

/-- Fallible map over a list, `none` if any element fails. -/
def mapOpt (f : α → Option β) : List α → Option (List β)
  | [] => some []
  | a :: as =>
    match f a, mapOpt f as with
    | some b, some bs => some (b :: bs)
    | _, _ => none

/-- Concatenated map (used to state merge results). -/
def catMap (f : α → List β) : List α → List β
  | [] => []
  | a :: as => f a ++ catMap f as

/-! ### The JSON value model

Python `json.loads` produces dicts, lists, strings, numbers (int/float),
booleans and `None`; with `allow_nan` (the default) also `nan`/`inf`.
Numbers are modelled as rationals.  Objects are association lists in
insertion order, with uniqueness of keys maintained the way a Python dict
literal is built (later duplicate keys overwrite the value in place). -/

inductive Json where
  | null : Json
  | bool (b : Bool) : Json
  | num (q : ℚ) : Json
  | nanv : Json
  | infv (neg : Bool) : Json
  | str (s : String) : Json
  | arr (xs : List Json) : Json
  | obj (kvs : List (String × Json)) : Json

/-- Dict lookup (`d[k]` on an existing key / membership witness). -/
def lookupKV : List (String × Json) → String → Option Json
  | [], _ => none
  | (k, v) :: rest, key => if k = key then some v else lookupKV rest key

/-- Dict assignment `d[k] = v`: overwrite in place or append (Python
insertion-order semantics). -/
def setKV : List (String × Json) → String → Json → List (String × Json)
  | [], key, v => [(key, v)]
  | (k, w) :: rest, key, v =>
    if k = key then (k, v) :: rest else (k, w) :: setKV rest key v

/-- Python truthiness of a JSON-shaped value. -/
def pyTruthy : Json → Bool
  | .null => false
  | .bool b => b
  | .num q => decide (q ≠ 0)
  | .nanv => true
  | .infv _ => true
  | .str s => decide (s ≠ "")
  | .arr xs => !xs.isEmpty
  | .obj kvs => !kvs.isEmpty

/-- Python `==` between a string literal and a JSON value (used by `in` on
lists). -/
def elemStrEq (k : String) : Json → Bool
  | .str s => s = k
  | _ => false

/-- Python `k in v` for a string key `k`; `none` models `TypeError`
(membership test on a number, boolean or `None`). -/
def pyContains (v : Json) (k : String) : Option Bool :=
  match v with
  | .obj kvs => some (lookupKV kvs k).isSome
  | .str s => some (strContainsSub k s)
  | .arr xs => some (xs.any (elemStrEq k))
  | _ => none

/-- Python `v[k]` for a string key; `none` models `TypeError`/`KeyError`. -/
def pyGetItem (v : Json) (k : String) : Option Json :=
  match v with
  | .obj kvs => lookupKV kvs k
  | _ => none

/-- Python `x + off` where `off` is a number; `none` models `TypeError`
(booleans coerce to 0/1, `nan`/`inf` absorb). -/
def pyAddNum (v : Json) (off : ℚ) : Option Json :=
  match v with
  | .num q => some (.num (q + off))
  | .bool b => some (.num ((if b then (1 : ℚ) else 0) + off))
  | .nanv => some .nanv
  | .infv n => some (.infv n)
  | _ => none

/-- Python `list.extend(v)`: iterate `v` (`none` = not iterable). -/
def pyExtendVal (v : Json) : Option (List Json) :=
  match v with
  | .arr xs => some xs
  | .str s => some (s.toList.map (fun c => .str (String.mk [c])))
  | .obj kvs => some (kvs.map (fun kv => .str kv.1))
  | _ => none

/-! ### `json.loads` model

A fuel-indexed recursive-descent parser for the JSON grammar accepted by
Python `json.loads` with default options: strict strings (raw control
characters rejected, only the standard escapes, `\uXXXX` with surrogate-pair
combination — a lone surrogate, which Python would keep, is mapped to U+FFFD
since Lean `Char` cannot hold it), numbers without leading zeros, and the
`NaN` / `Infinity` / `-Infinity` extensions.  A run of digits with a leading
zero is rejected outright; Python instead parses the `0` and then fails on
the following digit, so whole-document success/failure agrees. -/

def hexVal (c : Char) : Option ℕ :=
  if '0' ≤ c ∧ c ≤ '9' then some (c.toNat - 48)
  else if 'a' ≤ c ∧ c ≤ 'f' then some (c.toNat - 87)
  else if 'A' ≤ c ∧ c ≤ 'F' then some (c.toNat - 55)
  else none

def digitsToNat (ds : List Char) : ℕ :=
  ds.foldl (fun acc c => acc * 10 + (c.toNat - 48)) 0

/-- A single-character JSON escape. -/
def escCharOf (e : Char) : Option Char :=
  match e with
  | '"' => some '"'
  | '\\' => some '\\'
  | '/' => some '/'
  | 'b' => some '\x08'
  | 'f' => some '\x0c'
  | 'n' => some '\n'
  | 'r' => some '\r'
  | 't' => some '\t'
  | _ => none

/-- JSON string body after the opening quote: returns content and remainder.
Fuel-indexed (each step consumes at least one character). -/
def parseStrAux : ℕ → List Char → Option (List Char × List Char)
  | 0, _ => none
  | _ + 1, [] => none
  | _ + 1, '"' :: rest => some ([], rest)
  | fuel + 1, '\\' :: 'u' :: a :: b :: c :: d :: rest =>
    (match hexVal a, hexVal b, hexVal c, hexVal d with
    | some ha, some hb, some hc, some hd =>
      let n := ((ha * 16 + hb) * 16 + hc) * 16 + hd
      if 0xD800 ≤ n ∧ n ≤ 0xDBFF then
        match rest with
        | '\\' :: 'u' :: a2 :: b2 :: c2 :: d2 :: rest2 =>
          (match hexVal a2, hexVal b2, hexVal c2, hexVal d2 with
          | some e1, some e2, some e3, some e4 =>
            let m := ((e1 * 16 + e2) * 16 + e3) * 16 + e4
            if 0xDC00 ≤ m ∧ m ≤ 0xDFFF then
              (parseStrAux fuel rest2).map (fun p =>
                (Char.ofNat (0x10000 + (n - 0xD800) * 0x400 + (m - 0xDC00)) :: p.1, p.2))
            else
              (parseStrAux fuel rest).map (fun p => ('�' :: p.1, p.2))
          | _, _, _, _ => none)
        | _ => (parseStrAux fuel rest).map (fun p => ('�' :: p.1, p.2))
      else if 0xDC00 ≤ n ∧ n ≤ 0xDFFF then
        (parseStrAux fuel rest).map (fun p => ('�' :: p.1, p.2))
      else
        (parseStrAux fuel rest).map (fun p => (Char.ofNat n :: p.1, p.2))
    | _, _, _, _ => none)
  | fuel + 1, '\\' :: e :: rest =>
    (match escCharOf e with
    | some ch => (parseStrAux fuel rest).map (fun p => (ch :: p.1, p.2))
    | none => none)
  | fuel + 1, c :: rest =>
    if c.val < 0x20 then none
    else (parseStrAux fuel rest).map (fun p => (c :: p.1, p.2))

def parseStrBody (cs : List Char) : Option (List Char × List Char) :=
  parseStrAux (cs.length + 1) cs

/-- Assemble a JSON number from sign, integer digits, fraction digits and
exponent. -/
def mkNumQ (neg : Bool) (ds fs : List Char) (e : ℕ) (eneg : Bool) : ℚ :=
  let base : ℚ := (digitsToNat ds : ℚ) + (digitsToNat fs : ℚ) / (10 : ℚ) ^ fs.length
  let scaled : ℚ := if eneg then base / (10 : ℚ) ^ e else base * (10 : ℚ) ^ e
  if neg then -scaled else scaled

def parseExpTail (neg : Bool) (ds fs cs : List Char) : Option (Json × List Char) :=
  let (eneg, cs1) :=
    match cs with
    | '+' :: r => (false, r)
    | '-' :: r => (true, r)
    | _ => (false, cs)
  let es := cs1.takeWhile Char.isDigit
  let cs2 := cs1.dropWhile Char.isDigit
  if es.isEmpty then none
  else some (.num (mkNumQ neg ds fs (digitsToNat es) eneg), cs2)

def parseFracExp (neg : Bool) (ds cs : List Char) : Option (Json × List Char) :=
  match cs with
  | '.' :: r =>
    let fs := r.takeWhile Char.isDigit
    let r2 := r.dropWhile Char.isDigit
    if fs.isEmpty then none
    else
      match r2 with
      | 'e' :: r3 => parseExpTail neg ds fs r3
      | 'E' :: r3 => parseExpTail neg ds fs r3
      | _ => some (.num (mkNumQ neg ds fs 0 false), r2)
  | 'e' :: r3 => parseExpTail neg ds [] r3
  | 'E' :: r3 => parseExpTail neg ds [] r3
  | _ => some (.num (mkNumQ neg ds [] 0 false), cs)

def parseNumL (cs : List Char) : Option (Json × List Char) :=
  let (neg, cs1) :=
    match cs with
    | '-' :: r => (true, r)
    | _ => (false, cs)
  let ds := cs1.takeWhile Char.isDigit
  let cs2 := cs1.dropWhile Char.isDigit
  if ds.isEmpty then none
  else if ds.length > 1 ∧ ds.headI = '0' then none
  else parseFracExp neg ds cs2

mutual

def parseValue : ℕ → List Char → Option (Json × List Char)
  | 0, _ => none
  | _ + 1, 'n' :: 'u' :: 'l' :: 'l' :: r => some (.null, r)
  | _ + 1, 't' :: 'r' :: 'u' :: 'e' :: r => some (.bool true, r)
  | _ + 1, 'f' :: 'a' :: 'l' :: 's' :: 'e' :: r => some (.bool false, r)
  | _ + 1, 'N' :: 'a' :: 'N' :: r => some (.nanv, r)
  | _ + 1, 'I' :: 'n' :: 'f' :: 'i' :: 'n' :: 'i' :: 't' :: 'y' :: r =>
    some (.infv false, r)
  | _ + 1, '-' :: 'I' :: 'n' :: 'f' :: 'i' :: 'n' :: 'i' :: 't' :: 'y' :: r =>
    some (.infv true, r)
  | _ + 1, '"' :: r =>
    (parseStrBody r).map (fun p => (.str (String.mk p.1), p.2))
  | fuel + 1, '\x7b' :: r =>
    (match dropWsJ r with
    | '\x7d' :: r2 => some (.obj [], r2)
    | r1 => parseMembers fuel r1 [])
  | fuel + 1, '[' :: r =>
    (match dropWsJ r with
    | ']' :: r2 => some (.arr [], r2)
    | r1 => parseItems fuel r1 [])
  | _ + 1, cs => parseNumL cs

/-- Object members, positioned at a key (whitespace already skipped). -/
def parseMembers : ℕ → List Char → List (String × Json) → Option (Json × List Char)
  | 0, _, _ => none
  | fuel + 1, '"' :: r, acc =>
    (match parseStrBody r with
    | none => none
    | some (kcs, r2) =>
      match dropWsJ r2 with
      | ':' :: r4 =>
        (match parseValue fuel (dropWsJ r4) with
        | none => none
        | some (v, r5) =>
          let acc2 := setKV acc (String.mk kcs) v
          match dropWsJ r5 with
          | ',' :: r7 => parseMembers fuel (dropWsJ r7) acc2
          | '\x7d' :: r7 => some (.obj acc2, r7)
          | _ => none)
      | _ => none)
  | _ + 1, _, _ => none

/-- Array items, positioned at a value (whitespace already skipped). -/
def parseItems : ℕ → List Char → List Json → Option (Json × List Char)
  | 0, _, _ => none
  | fuel + 1, cs, acc =>
    match parseValue fuel cs with
    | none => none
    | some (v, r) =>
      match dropWsJ r with
      | ',' :: r2 => parseItems fuel (dropWsJ r2) (acc ++ [v])
      | ']' :: r2 => some (.arr (acc ++ [v]), r2)
      | _ => none

end

/-- `json.loads` on a character list: parse one value, then only whitespace
may remain. -/
def jsonLoadsL (cs : List Char) : Option Json :=
  match parseValue (2 * cs.length + 8) (dropWsJ cs) with
  | some (v, rest) => if (dropWsJ rest).isEmpty then some v else none
  | none => none

/-! ### Timestamp synthesizer — `generate_word_timestamps`

`round2` models Python `round(x, 2)` (nearest multiple of 1/100; the
floating-point tie-breaking of CPython is irrelevant at the 1/100 tolerance
the spec claims). -/

def round2 (q : ℚ) : ℚ := ((round (q * 100) : ℤ) : ℚ) / 100

/-- `re.findall(r'\b\w+\b', text)`: maximal runs of word characters. -/
def tokenRuns : List Char → List Char → List String
  | [], acc => if acc.isEmpty then [] else [String.mk acc.reverse]
  | c :: cs, acc =>
    if isWordChar c then tokenRuns cs (c :: acc)
    else if acc.isEmpty then tokenRuns cs []
    else String.mk acc.reverse :: tokenRuns cs []

/-- `re.findall(r'\b\w+\b', text.lower())` (lower-casing character-wise,
which is what `str.lower` does for the ASCII model). -/
def findallWords (text : String) : List String :=
  tokenRuns (text.toList.map Char.toLower) []

/-- `word_duration = max(0.2, min(0.8, len(word) * 0.1))`. -/
def wordDurationOf (w : String) : ℚ :=
  max (2 / 10) (min (8 / 10) ((w.length : ℚ) * (1 / 10)))

/-- One synthesized `{"word", "start", "end"}` record. -/
structure WordStamp where
  word : String
  start : ℚ
  stop : ℚ

/-- The synthesis loop: `start = round(current + offset, 2)`,
`end = round(current + word_duration + offset, 2)`, `current += time_per_word`. -/
def genStamps (off tpw : ℚ) : List String → ℚ → List WordStamp
  | [], _ => []
  | w :: ws, cur =>
    ⟨w, round2 (cur + off), round2 (cur + wordDurationOf w + off)⟩ ::
      genStamps off tpw ws (cur + tpw)

def generate_word_timestamps (text : String) (duration : ℚ) (chunk_offset : ℚ) :
    List WordStamp :=
  let words := findallWords text
  if words.isEmpty ∨ duration ≤ 0 then []
  else genStamps chunk_offset (duration / (words.length : ℚ)) words 0

def stampToJson (s : WordStamp) : Json :=
  .obj [("word", .str s.word), ("start", .num s.start), ("end", .num s.stop)]

/-! ### Reconciliation cascade — inside `transcribe_audio_chunk`

Step 1: strip a fenced markdown block (` ```json ` first, then any ` ``` `).
Step 2: truncation repair when `count('{') > count('}')`.
Step 3: `json.loads`; on success post-process the parsed value, on
`JSONDecodeError` run the text-extraction fallback. -/

def fenceJson : List Char := "```json".toList
def fencePlain : List Char := "```".toList

/-- Lines 338-341: `split('```json')[1].split('```')[0].strip()` etc. -/
def stripFences (cs : List Char) : List Char :=
  if containsL fenceJson cs then
    match afterFirst fenceJson cs with
    | some rest => pyStrip (beforeFirst fencePlain (beforeFirst fenceJson rest))
    | none => cs
  else if containsL fencePlain cs then
    match afterFirst fencePlain cs with
    | some rest => pyStrip (beforeFirst fencePlain rest)
    | none => cs
  else cs

def wordsKeyLit : List Char := "\"words\"".toList
def textKeyLit : List Char := "\"text\"".toList

/-- Lines 345-353: close an unbalanced response.  When `"words"` is present
and no `]` occurs, the text is cut back to the last `[` and a `]` put in its
place; then trailing whitespace and commas are stripped and `\n}` appended. -/
def repairTruncated (cs : List Char) : List Char :=
  if countCh '\x7b' cs > countCh '\x7d' cs then
    let cs1 :=
      if containsL wordsKeyLit cs ∧ (rfindCh ']' cs).isNone then
        match rfindCh '[' cs with
        | some i => cs.take i ++ [']']
        | none => cs
      else cs
    rstripBy (· = ',') (rstripBy pyWs cs1) ++ ['\n', '\x7d']
  else cs

/-- The candidate string `transcription_text` handed to `json.loads`
(and, on parse failure, to the fallback extraction). -/
def candidateOf (content : String) : List Char :=
  repairTruncated (stripFences content.toList)

/-! The fallback regex `"text"\s*:\s*"([^"]*(?:\\.[^"]*)*)"`.
Because `[^"]*` is greedy and does not exclude backslashes, the group always
ends at the first `"` after the opening quote (the escape alternative is
unreachable: after a maximal `[^"]*` the engine sits on a quote and closes,
and when no quote follows at all the whole attempt fails).  The search is
leftmost over occurrences of the literal `"text"`. -/

/-- Group body: characters up to the first `"`; fails at end of input. -/
def takeToQuote : List Char → Option (List Char)
  | [] => none
  | '"' :: _ => some []
  | c :: cs => (takeToQuote cs).map (c :: ·)

/-- `\s` of Python `re` (ASCII part) equals the `str.strip` set. -/
def dropWsRe (cs : List Char) : List Char := cs.dropWhile pyWs

/-- Try the whole pattern at this position. -/
def matchTextAt (cs : List Char) : Option (List Char) :=
  if isPrefixL textKeyLit cs then
    match dropWsRe (cs.drop textKeyLit.length) with
    | ':' :: r1 =>
      (match dropWsRe r1 with
      | '"' :: r2 => takeToQuote r2
      | _ => none)
    | _ => none
  else none

/-- `re.search`: leftmost successful match wins. -/
def searchTextGroup : List Char → Option (List Char)
  | [] => none
  | c :: cs =>
    match matchTextAt (c :: cs) with
    | some g => some g
    | none => searchTextGroup cs

/-- Lines 398-402: regex extraction plus unescaping of `\"`, `\n`, `\t`. -/
def regexTextExtract (cs : List Char) : Option String :=
  (searchTextGroup cs).map (fun g =>
    String.mk (replaceAll "\\t".toList " ".toList
      (replaceAll "\\n".toList " ".toList
        (replaceAll "\\\"".toList "\"".toList g))))

/-- Lines 404-416: the split-based extraction used when the regex fails. -/
def splitTextExtract (cs : List Char) : Option String :=
  if containsL textKeyLit cs then
    match afterFirst textKeyLit cs with
    | some tail =>
      (match pyStrip tail with
      | ':' :: r1 =>
        (match pyStrip r1 with
        | '"' :: r2 =>
          (match findIdxL ['"'] r2 with
          | some j => some (String.mk (r2.take j))
          | none => none)
        | _ => none)
      | _ => none)
    | none => none
  else none

/-- Lines 419-425: strip control characters, then a leading
`{\s*"text"\s*:\s*"` wrapper, then a trailing `"\s*}` wrapper, then
whitespace and quotes. -/
def stripLeadWrapper (cs : List Char) : List Char :=
  match dropWsRe cs with
  | '\x7b' :: r1 =>
    (match dropWsRe r1 with
    | '"' :: 't' :: 'e' :: 'x' :: 't' :: '"' :: r2 =>
      (match dropWsRe r2 with
      | ':' :: r3 =>
        (match dropWsRe r3 with
        | '"' :: r4 => r4
        | _ => cs)
      | _ => cs)
    | _ => cs)
  | _ => cs

/-- Does this suffix position match `"\s*\}\s*$`? -/
def matchTrailAt : List Char → Bool
  | '"' :: rest =>
    (match dropWsRe rest with
    | '\x7d' :: r2 => (dropWsRe r2).isEmpty
    | _ => false)
  | _ => false

/-- `re.sub(r'"\s*\}\s*$', '', t)`: drop from the leftmost matching quote. -/
def stripTrailWrapper : List Char → List Char
  | [] => []
  | c :: cs => if matchTrailAt (c :: cs) then [] else c :: stripTrailWrapper cs

def cleanupText (cs : List Char) : List Char :=
  let t1 := cs.filter (fun c => !isCtrlStripped c)
  let t2 := stripTrailWrapper (stripLeadWrapper t1)
  rstripBy (· = '"') (lstripBy (· = '"') (pyStrip t2))

/-- `duration` truthiness: `None` and `0.0` are falsy. -/
def durTruthy : Option ℚ → Bool
  | some q => decide (q ≠ 0)
  | none => false

/-- The extracted text after lines 395-425: regex first, split second,
cleanup when both fail or return the empty string. -/
def fallbackText (cand : List Char) : String :=
  match
    (match regexTextExtract cand with
    | some t => some t
    | none => splitTextExtract cand) with
  | some t => if t = "" then String.mk (cleanupText cand) else t
  | none => String.mk (cleanupText cand)

/-- Lines 432-435: synthesize timestamps when a duration is known. -/
def fallbackWords (t : String) (off : ℚ) (dur : Option ℚ) : List Json :=
  match dur with
  | some q =>
    if q ≠ 0 then (generate_word_timestamps t q off).map stampToJson else []
  | none => []

/-- The `except json.JSONDecodeError` branch (lines 390-446), producing a
result from the unparseable candidate. -/
def reconcileFallback (cand : List Char) (off : ℚ) (dur : Option ℚ) : Json :=
  let t1 := fallbackText cand
  if t1 ≠ "" then
    .obj [("text", .str t1), ("words", .arr (fallbackWords t1 off dur))]
  else
    .obj [("text", .str (String.mk cand)), ("words", .arr [])]

/-- `word['start'] += chunk_offset; word['end'] += chunk_offset` on one
element of the `words` iterable (lines 382-386); `none` models a
`TypeError` escaping to the outer handler. -/
def adjustWord (off : ℚ) (w : Json) : Option Json :=
  match w with
  | .obj kts =>
    (match lookupKV kts "start" with
    | some v =>
      (match pyAddNum v off with
      | some v2 => some (setKV kts "start" v2)
      | none => none)
    | none => some kts).bind (fun kts1 =>
      (match lookupKV kts1 "end" with
      | some v =>
        (match pyAddNum v off with
        | some v2 => some (.obj (setKV kts1 "end" v2))
        | none => none)
      | none => some (.obj kts1)))
  | .str s =>
    if strContainsSub "start" s ∨ strContainsSub "end" s then none else some (.str s)
  | .arr xs =>
    if xs.any (elemStrEq "start") ∨ xs.any (elemStrEq "end") then none
    else some (.arr xs)
  | _ => none

/-- The `for word in transcription_data['words']` loop over the (truthy)
`words` value.  Iterating a string yields single characters (none of which
contain `'start'`/`'end'`, so nothing happens); iterating a dict yields its
keys, and any key containing `'start'` or `'end'` hits a `TypeError`;
numbers and booleans are not iterable. -/
def adjustWords (off : ℚ) (wv : Json) : Option Json :=
  match wv with
  | .arr xs => (mapOpt (adjustWord off) xs).map .arr
  | .str s => some (.str s)
  | .obj kts =>
    if kts.any (fun kv => strContainsSub "start" kv.1 ∨ strContainsSub "end" kv.1)
    then none else some (.obj kts)
  | _ => none

/-- Lines 358-379: the branch where `words` is missing or falsy. -/
def completeParsed (kvs : List (String × Json)) (candidate : String) (off : ℚ)
    (dur : Option ℚ) : Option Json :=
  if durTruthy dur ∧ (lookupKV kvs "text").isSome then
    match lookupKV kvs "text", dur with
    | some (.str t), some q =>
      some (.obj (setKV kvs "words"
        (.arr ((generate_word_timestamps t q off).map stampToJson))))
    | _, _ => none
  else
    let kvs1 :=
      if (lookupKV kvs "text").isSome then kvs
      else kvs ++ [("text", .str candidate)]
    let kvs2 :=
      if (lookupKV kvs1 "words").isSome then kvs1
      else kvs1 ++ [("words", .arr [])]
    some (.obj kvs2)

/-- Lines 355-389: post-processing of a successfully parsed value.  A parsed
value that is not a dict always ends in a `TypeError` (membership test,
item assignment or item access on a non-dict), swallowed by the outer
`except Exception` into a `None` result. -/
def postParse (d : Json) (candidate : String) (off : ℚ) (dur : Option ℚ) :
    Option Json :=
  match d with
  | .obj kvs =>
    (match lookupKV kvs "words" with
    | some wv =>
      if pyTruthy wv then
        (adjustWords off wv).map (fun wv2 => .obj (setKV kvs "words" wv2))
      else completeParsed kvs candidate off dur
    | none => completeParsed kvs candidate off dur)
  | _ => none

/-- The reconciliation of one chunk's response content (the body of
`transcribe_audio_chunk` from line 336 on, given the first choice's message
content, the chunk's offset and its probed duration). -/
def reconcileContent (content : String) (off : ℚ) (dur : Option ℚ) : Option Json :=
  let cand := candidateOf content
  match jsonLoadsL cand with
  | some d => postParse d (String.mk cand) off dur
  | none => some (reconcileFallback cand off dur)

/-! ### Per-chunk call and orchestrator -/

/-- The externally-determined facts about one chunk: its byte size, the
remote response content (`none`: transport error, non-2xx, or an envelope
without choices) and the duration the prober would report for it. -/
structure ChunkCall where
  sizeBytes : ℕ
  response : Option String
  duration : Option ℚ

/-- `transcribe_audio_chunk`: the 10 MiB guard, then the remote call, then
reconciliation.  `none` is a failed chunk. -/
def transcribe_audio_chunk (c : ChunkCall) (off : ℚ) : Option Json :=
  if c.sizeBytes > 10 * 1024 * 1024 then none
  else
    match c.response with
    | none => none
    | some content => reconcileContent content off c.duration

/-- One chunk's contribution to (`full_text_parts`, `all_words`)
(lines 518-525).  `none` models an uncaught `TypeError` in the merge loop. -/
def chunkContrib (r : Option Json) : Option (List Json × List Json) :=
  match r with
  | none => some ([], [])
  | some j =>
    if pyTruthy j then
      (match pyContains j "words" with
      | none => none
      | some true =>
        (match pyGetItem j "words" with
        | none => none
        | some wv =>
          match pyExtendVal wv with
          | none => none
          | some ws =>
            match pyContains j "text" with
            | none => none
            | some true =>
              (match pyGetItem j "text" with
              | none => none
              | some tv => some ([tv], ws))
            | some false => some ([], ws))
      | some false =>
        (match pyContains j "text" with
        | none => none
        | some true =>
          (match pyGetItem j "text" with
          | none => none
          | some tv => some ([tv], []))
        | some false => some ([], [])))
    else some ([], [])

/-- The chunk loop: chunk `i` is transcribed with offset `i * chunk_duration`
and contributions are concatenated in index order. -/
def mergeChunks (l : ℚ) : List ChunkCall → ℕ → Option (List Json × List Json)
  | [], _ => some ([], [])
  | c :: rest, i =>
    match chunkContrib (transcribe_audio_chunk c ((i : ℚ) * l)) with
    | none => none
    | some (ts, ws) =>
      match mergeChunks l rest (i + 1) with
      | none => none
      | some (ts2, ws2) => some (ts ++ ts2, ws ++ ws2)

/-- `" ".join(full_text_parts)`: every part must be a string. -/
def joinSpace : List String → String
  | [] => ""
  | [s] => s
  | s :: rest => s ++ " " ++ joinSpace rest

def joinTexts (parts : List Json) : Option String :=
  (mapOpt (fun j => match j with | .str s => some s | _ => none) parts).map joinSpace

/-- `transcribe_audio_with_timestamps` (lines 493-557), with the externals
as parameters: the input file's size, the `ChunkCall` for the whole file
(small-file path), the `ChunkCall` list `split_audio_into_chunks` would
return (large-file path), and the chunk duration.  The returned value is
the content of the JSON artifact; `none` means no artifact is written
(early `return None`, or an uncaught exception in the merge loop). -/
def transcribe_audio_with_timestamps (fileSize : ℕ) (whole : ChunkCall)
    (chunks : List ChunkCall) (chunk_duration : ℚ) : Option Json :=
  if fileSize > 5 * 1024 * 1024 then
    if chunks.isEmpty then none
    else
      match mergeChunks chunk_duration chunks 0 with
      | none => none
      | some (parts, ws) =>
        (match joinTexts parts with
        | none => none
        | some t => some (.obj [("text", .str t), ("words", .arr ws)]))
  else
    match transcribe_audio_chunk whole 0 with
    | none => none
    | some j => if pyTruthy j then some j else none

/-! ### Segmenter — `split_audio_into_chunks`

The ffmpeg extraction of segment `i` (requested at start time `start`) is an
oracle: whether the subprocess exited 0, whether the output file exists, and
its size.  The loop appends on success-with-nonempty-file, breaks without
touching the file on success-with-empty-or-missing-file, and on a subprocess
error deletes the file (if present) and breaks.  `fuel` bounds the loop. -/

structure ExtractOutcome where
  success : Bool
  present : Bool
  size : ℕ

/-- How the loop stopped, and what happened to the terminal artifact. -/
inductive SplitStop where
  /-- Extraction exited 0 but the file is missing or empty; the loop breaks
  and the file, if present, is left in place. -/
  | emptyBreak (present : Bool) (size : ℕ) : SplitStop
  /-- Extraction failed; the file is removed when present. -/
  | errorCleanup (removed : Bool) : SplitStop
  /-- Fuel exhausted (the Python loop is unbounded). -/
  | ranOut : SplitStop

/-- The loop body: returns the `(index, start_time)` pairs of the produced
chunks, in order, plus the stop event. -/
def splitLoop (extract : ℕ → ℕ → ExtractOutcome) (chunk_duration : ℕ) :
    ℕ → ℕ → ℕ → List (ℕ × ℕ) × SplitStop
  | 0, _, _ => ([], .ranOut)
  | fuel + 1, i, start =>
    let o := extract i start
    if o.success then
      if o.present ∧ o.size > 0 then
        let r := splitLoop extract chunk_duration fuel (i + 1) (start + chunk_duration)
        ((i, start) :: r.1, r.2)
      else ([], .emptyBreak o.present o.size)
    else ([], .errorCleanup o.present)

def split_audio_into_chunks (extract : ℕ → ℕ → ExtractOutcome)
    (chunk_duration : ℕ) (fuel : ℕ) : List (ℕ × ℕ) × SplitStop :=
  splitLoop extract chunk_duration fuel 0 0

/-! ### Readers and spec-side descriptions used in the theorem statements -/

/-- Does a result value (a Python dict) carry key `k`? -/
def hasKeyJ (j : Json) (k : String) : Bool :=
  match j with
  | .obj kvs => (lookupKV kvs k).isSome
  | _ => false

/-- Numeric field of a span. -/
def getNumKey (w : Json) (k : String) : Option ℚ :=
  match pyGetItem w k with
  | some (.num q) => some q
  | _ => none

/-- Span well-formedness: numeric `start`/`end` with `end ≥ start`. -/
def endOKB (w : Json) : Bool :=
  match getNumKey w "start", getNumKey w "end" with
  | some a, some b => decide (a ≤ b)
  | _, _ => false

/-- Numeric `start` fields in non-decreasing order between two spans. -/
def startLeB (w1 w2 : Json) : Bool :=
  match getNumKey w1 "start", getNumKey w2 "start" with
  | some a, some b => decide (a ≤ b)
  | _, _ => false

/-- The data-model invariant of §3 on a `words` sequence: non-decreasing
`start`, every `end ≥ start` (demanding numeric fields throughout). -/
def spansInvB : List Json → Bool
  | [] => true
  | [w] => endOKB w
  | w1 :: w2 :: rest => endOKB w1 && startLeB w1 w2 && spansInvB (w2 :: rest)

/-- The `words` list of a reconciliation result, when it has one. -/
def resultWordsOf (r : Option Json) : Option (List Json) :=
  match r with
  | some (.obj kvs) =>
    (match lookupKV kvs "words" with
    | some (.arr ws) => some ws
    | _ => none)
  | _ => none

/-- A per-segment result in the shape the spec's data model prescribes:
either a failure, or a (truthy) dict with a string `text` and a list
`words`. -/
def resultWF : Option Json → Prop
  | none => True
  | some j =>
    ∃ kvs t ws, j = Json.obj kvs ∧ kvs ≠ [] ∧
      lookupKV kvs "text" = some (.str t) ∧
      lookupKV kvs "words" = some (.arr ws)

/-- Spec-side reader: the `text` contribution of one per-segment result. -/
def successTextOf : Option Json → List String
  | some (Json.obj kvs) =>
    if kvs.isEmpty then []
    else
      match lookupKV kvs "text" with
      | some (Json.str t) => [t]
      | _ => []
  | _ => []

/-- Spec-side reader: the `words` contribution of one per-segment result. -/
def successWordsOf : Option Json → List Json
  | some (Json.obj kvs) =>
    if kvs.isEmpty then []
    else
      match lookupKV kvs "words" with
      | some (Json.arr ws) => ws
      | _ => []
  | _ => []

/-- The per-segment results the orchestrator's loop computes, spelled
directly: segment `i` is transcribed with offset `i * l`. -/
def chunkResultsFrom (l : ℚ) : List ChunkCall → ℕ → List (Option Json)
  | [], _ => []
  | c :: rest, i =>
    transcribe_audio_chunk c ((i : ℚ) * l) :: chunkResultsFrom l rest (i + 1)

def chunkResults (chunks : List ChunkCall) (l : ℚ) : List (Option Json) :=
  chunkResultsFrom l chunks 0

/-- Index-free restatement of the merge loop over precomputed results. -/
def mergeResults : List (Option Json) → Option (List Json × List Json)
  | [] => some ([], [])
  | r :: rest =>
    match chunkContrib r, mergeResults rest with
    | some (ts, ws), some (ts2, ws2) => some (ts ++ ts2, ws ++ ws2)
    | _, _ => none

/-- What the loop does at the first non-good index: on a successful but
empty/missing extraction it breaks leaving the file alone; on an extraction
error it removes the file when present. -/
def stopOutcome (o : ExtractOutcome) : SplitStop :=
  if o.success then .emptyBreak o.present o.size else .errorCleanup o.present

/-- Was the terminal extraction artifact removed from disk? -/
def terminalRemoved : SplitStop → Bool
  | .errorCleanup r => r
  | _ => false

/-- Extraction oracle where segment 1 extraction exits 0 but produces a
zero-byte file that remains on disk. -/
def exEmptySecond : ℕ → ℕ → ExtractOutcome :=
  fun i _ => if i = 0 then ⟨true, true, 10⟩ else ⟨true, true, 0⟩

/-- A successful extraction of a nonempty segment at index `i`, requested at
start time `i * d`. -/
def goodAt (extract : ℕ → ℕ → ExtractOutcome) (d i : ℕ) : Prop :=
  (extract i (i * d)).success = true ∧ (extract i (i * d)).present = true ∧
    (extract i (i * d)).size > 0

/-- The spec-side transformation of §4.4 step 4 on one span: add the offset
to the numeric `start` and `end` fields and change nothing else. -/
def specOffsetSpan (off : ℚ) : Json → Json
  | .obj kts =>
    .obj (kts.map (fun kv =>
      if kv.1 = "start" ∨ kv.1 = "end" then
        (kv.1, match kv.2 with | Json.num q => Json.num (q + off) | v => v)
      else kv))
  | v => v

/-! ### Concrete inputs used by counterexamples and witnesses -/

/-- The truncated response of §8, cut mid-object. -/
def truncatedResp : String :=
  "\x7b\"text\": \"hello world\", \"words\": [\x7b\"word\":\"hello\",\"start\":0,\"end\":0.3\x7d,\x7b\"word\":\"world\",\"start"

/-- A well-formed response whose spans are strictly decreasing in `start`. -/
def decreasingResp : String :=
  "\x7b\"text\":\"x\",\"words\":[\x7b\"word\":\"b\",\"start\":5,\"end\":6\x7d,\x7b\"word\":\"a\",\"start\":0,\"end\":1\x7d]\x7d"

/-- A well-formed response with a `words` array and no `text` field. -/
def wordsOnlyResp : String :=
  "\x7b\"words\":[\x7b\"word\":\"a\",\"start\":1,\"end\":2\x7d]\x7d"

/-- A well-formed one-word response. -/
def oneWordResp : String :=
  "\x7b\"text\":\"hi\",\"words\":[\x7b\"word\":\"hi\",\"start\":1,\"end\":2.5\x7d]\x7d"

/-- The parsed form of `oneWordResp`'s single span. -/
def oneWordSpan : Json :=
  .obj [("word", .str "hi"), ("start", .num 1), ("end", .num (5 / 2))]

/-- The parsed form of `oneWordResp`. -/
def oneWordKvs : List (String × Json) :=
  [("text", .str "hi"), ("words", .arr [oneWordSpan])]

/-- A failing chunk: transport error (or empty choices). -/
def failingChunk : ChunkCall := ⟨1000, none, none⟩

/-- Successful chunks used in merge examples. -/
def chunkRespA : ChunkCall :=
  ⟨1000, some "\x7b\"text\":\"a\",\"words\":[\x7b\"word\":\"a\",\"start\":0,\"end\":0.5\x7d]\x7d", none⟩

def chunkRespB : ChunkCall :=
  ⟨1000, some "\x7b\"text\":\"b\",\"words\":[\x7b\"word\":\"b\",\"start\":0,\"end\":0.4\x7d]\x7d", none⟩

/-! ## Helper lemmas -/

theorem lookupKV_setKV_self (kvs : List (String × Json)) (k : String) (v : Json) :
    lookupKV (setKV kvs k v) k = some v := by
  induction kvs with
  | nil => simp [setKV, lookupKV]
  | cons kv rest ih =>
    by_cases h : kv.1 = k
    · simp [setKV, lookupKV, h]
    · cases kv with
      | mk k0 v0 =>
        simp only [setKV, lookupKV]
        simp only at h
        rw [if_neg h, lookupKV, if_neg h]
        exact ih

theorem lookupKV_setKV_ne (kvs : List (String × Json)) (k k2 : String) (v : Json)
    (h : k2 ≠ k) : lookupKV (setKV kvs k v) k2 = lookupKV kvs k2 := by
  induction kvs with
  | nil =>
    simp only [setKV, lookupKV]
    rw [if_neg (fun hh : k = k2 => h hh.symm)]
  | cons kv rest ih =>
    cases kv with
    | mk k0 v0 =>
      by_cases h0 : k0 = k
      · subst h0
        simp only [setKV, if_pos rfl, lookupKV]
        rw [if_neg (fun hh => h hh.symm), if_neg (fun hh => h hh.symm)]
      · simp only [setKV, if_neg h0, lookupKV]
        by_cases h2 : k0 = k2
        · rw [if_pos h2, if_pos h2]
        · rw [if_neg h2, if_neg h2]
          exact ih

theorem lookupKV_append (l1 l2 : List (String × Json)) (k : String) :
    lookupKV (l1 ++ l2) k =
      (match lookupKV l1 k with
      | some v => some v
      | none => lookupKV l2 k) := by
  induction l1 with
  | nil => simp [lookupKV]
  | cons kv rest ih =>
    cases kv with
    | mk k0 v0 =>
      by_cases h : k0 = k
      · simp [lookupKV, h]
      · simp only [List.cons_append, lookupKV, if_neg h]
        exact ih

/-- Inversion of `mapOpt` on a cons cell. -/
theorem mapOpt_cons_inv {f : α → Option β} {a : α} {l : List α} {r : List β}
    (h : mapOpt f (a :: l) = some r) :
    ∃ b r2, f a = some b ∧ mapOpt f l = some r2 ∧ r = b :: r2 := by
  simp only [mapOpt] at h
  cases hf : f a with
  | none => rw [hf] at h; exact absurd h (by simp)
  | some b =>
    rw [hf] at h
    cases hl : mapOpt f l with
    | none => rw [hl] at h; exact absurd h (by simp)
    | some r2 =>
      rw [hl] at h
      exact ⟨b, r2, rfl, rfl, by injection h with h2; exact h2.symm⟩

/-- Pointwise construction of a `mapOpt` result. -/
theorem mapOpt_of_forall {f : α → Option β} {P : α → β → Prop} :
    ∀ {l : List α}, (∀ a ∈ l, ∃ b, f a = some b ∧ P a b) →
      ∃ r, mapOpt f l = some r ∧ r.length = l.length ∧
        ∀ i (h1 : i < r.length) (h2 : i < l.length), P (l.get ⟨i, h2⟩) (r.get ⟨i, h1⟩) := by
  intro l
  induction l with
  | nil => intro _; exact ⟨[], rfl, rfl, fun i h1 h2 => absurd h2 (Nat.not_lt_zero i)⟩
  | cons a l ih =>
    intro h
    obtain ⟨b, hb, hPb⟩ := h a (List.mem_cons_self a l)
    obtain ⟨r, hr, hlen, hP⟩ := ih (fun x hx => h x (List.mem_cons_of_mem a hx))
    refine ⟨b :: r, ?_, by simp [hlen], ?_⟩
    · simp [mapOpt, hb, hr]
    · intro i h1 h2
      match i with
      | 0 => exact hPb
      | i + 1 => exact hP i (Nat.lt_of_succ_lt_succ h1) (Nat.lt_of_succ_lt_succ h2)

theorem fallbackText_of_regex {cand : List Char} {t : String}
    (h : regexTextExtract cand = some t) (hne : t ≠ "") :
    fallbackText cand = t := by
  simp only [fallbackText, h]
  rw [if_neg hne]

/-! ## Claims -/

/-- C4: reconciling the truncated response
`{"text": "hello world", "words": [{"word":"hello","start":0,"end":0.3},{"word":"world","start`
(cut mid-object) raises no error and yields a non-nil result whose `text`
field equals `"hello world"`, for every offset and probed duration.  (The
truncation repair itself produces invalid JSON — `"words": ]` — so the
result comes from the regex text-extraction fallback.) -/
theorem C4_truncated_response_reconciles (off : ℚ) (dur : Option ℚ) :
    ∃ ws, reconcileContent truncatedResp off dur =
      some (.obj [("text", .str "hello world"), ("words", .arr ws)]) := by
  have hparse : jsonLoadsL (candidateOf truncatedResp) = none := rfl
  have hregex : regexTextExtract (candidateOf truncatedResp) = some "hello world" := rfl
  have htext : fallbackText (candidateOf truncatedResp) = "hello world" :=
    fallbackText_of_regex hregex (by decide)
  refine ⟨fallbackWords "hello world" off dur, ?_⟩
  simp only [reconcileContent, hparse]
  simp only [reconcileFallback, htext]
  rw [if_pos (show ("hello world" : String) ≠ "" by decide)]

/-- Whatever branch the fallback takes, the result is a two-key
`{text, words}` object. -/
theorem reconcileFallback_shape (cand : List Char) (off : ℚ) (dur : Option ℚ) :
    ∃ t ws, reconcileFallback cand off dur =
      .obj [("text", Json.str t), ("words", Json.arr ws)] := by
  simp only [reconcileFallback]
  by_cases ht : fallbackText cand = ""
  · exact ⟨String.mk cand, [], by rw [if_neg (not_not_intro ht)]⟩
  · exact ⟨fallbackText cand, fallbackWords (fallbackText cand) off dur,
      by rw [if_pos ht]⟩

/-- C2 (amended): whenever the candidate string (after fence stripping and
truncation repair) fails to parse as JSON, the reconciler returns a
`{text, words}` result — and when even the fallback extraction and cleanup
yield nothing, the result is the candidate string as `text` with an empty
word list.  (The original claim — a result for *every* string content — is
false: content that parses to a non-dict JSON value, such as `"5"`, hits a
`TypeError` in the membership test and the outer handler returns `None`;
see the counterexample.) -/
theorem C2_reconciler_total_on_parse_failure :
    (∀ content : String, ∀ off : ℚ, ∀ dur : Option ℚ,
      jsonLoadsL (candidateOf content) = none →
      ∃ t ws, reconcileContent content off dur =
        some (.obj [("text", Json.str t), ("words", Json.arr ws)])) ∧
    (∀ content : String, ∀ off : ℚ, ∀ dur : Option ℚ,
      jsonLoadsL (candidateOf content) = none →
      regexTextExtract (candidateOf content) = none →
      splitTextExtract (candidateOf content) = none →
      cleanupText (candidateOf content) = [] →
      reconcileContent content off dur =
        some (.obj [("text", Json.str (String.mk (candidateOf content))),
          ("words", Json.arr [])])) := by
  constructor
  · intro content off dur h
    simp only [reconcileContent, h]
    obtain ⟨t, ws, hw⟩ := reconcileFallback_shape (candidateOf content) off dur
    exact ⟨t, ws, by rw [hw]⟩
  · intro content off dur h h1 h2 h3
    have ht : fallbackText (candidateOf content) = "" := by
      simp only [fallbackText, h1, h2, h3]
    simp only [reconcileContent, h, reconcileFallback, ht]
    rw [if_neg (not_not_intro rfl)]

/-- C2 witness: a plain-text response (not valid JSON) is returned as a
result rather than an error. -/
theorem C2_reconciler_total_witness :
    ∃ t ws, reconcileContent "Just some plain text answer" 0 none =
      some (.obj [("text", Json.str t), ("words", Json.arr ws)]) :=
  C2_reconciler_total_on_parse_failure.1 "Just some plain text answer" 0 none rfl

/-- C2 counterexample: the content `"5"` is a well-formed remote string
response, but it parses to the integer `5`; `'words' not in 5` raises
`TypeError`, the outer `except Exception` swallows it, and the function
returns `None` — the response is discarded, contradicting the claim that
the cascade always yields a result (worst case the raw string). -/
theorem C2_counterexample_nonobject_content :
    reconcileContent "5" 0 none = none := rfl

/-- Post-parse completion always leaves a `words` key in the dict. -/
theorem completeParsed_hasWords {kvs : List (String × Json)} {cand : String}
    {off : ℚ} {dur : Option ℚ} {j : Json}
    (h : completeParsed kvs cand off dur = some j) : hasKeyJ j "words" = true := by
  simp only [completeParsed] at h
  by_cases hc : durTruthy dur = true ∧ (lookupKV kvs "text").isSome = true
  · rw [if_pos hc] at h
    cases htv : lookupKV kvs "text" with
    | none => rw [htv] at hc; exact absurd hc.2 (by simp)
    | some tv =>
      rw [htv] at h
      cases tv with
      | str t =>
        cases dur with
        | none => exact absurd h (by simp)
        | some q =>
          simp only at h
          injection h with h
          subst h
          simp [hasKeyJ, lookupKV_setKV_self]
      | null => exact absurd h (by cases dur <;> simp)
      | bool b => exact absurd h (by cases dur <;> simp)
      | num q => exact absurd h (by cases dur <;> simp)
      | nanv => exact absurd h (by cases dur <;> simp)
      | infv n => exact absurd h (by cases dur <;> simp)
      | arr xs => exact absurd h (by cases dur <;> simp)
      | obj kvs2 => exact absurd h (by cases dur <;> simp)
  · rw [if_neg hc] at h
    injection h with h
    subst h
    by_cases hw : (lookupKV (if (lookupKV kvs "text").isSome then kvs
        else kvs ++ [("text", Json.str cand)]) "words").isSome = true
    · simp only [hasKeyJ]
      rw [if_pos hw]
      exact hw
    · simp only [hasKeyJ]
      rw [if_neg hw]
      rw [lookupKV_append]
      cases hl : lookupKV (if (lookupKV kvs "text").isSome then kvs
          else kvs ++ [("text", Json.str cand)]) "words" with
      | some v => rw [hl] at hw; simp at hw
      | none => simp [lookupKV]

/-- C10: every non-`None` result of the per-segment reconciliation is a
dict carrying a `words` key, but a `text` key is not guaranteed: a valid
JSON response with a non-empty `words` array and no `text` field is
returned as-is (offset-adjusted), without any `text` key. -/
theorem C10_results_have_words_key_but_maybe_no_text :
    (∀ content : String, ∀ off : ℚ, ∀ dur : Option ℚ, ∀ j : Json,
      reconcileContent content off dur = some j → hasKeyJ j "words" = true) ∧
    (reconcileContent wordsOnlyResp 0 none =
        some (.obj [("words", .arr [.obj
          [("word", .str "a"), ("start", .num 1), ("end", .num 2)]])]) ∧
      hasKeyJ (.obj [("words", .arr [.obj
          [("word", .str "a"), ("start", .num 1), ("end", .num 2)]])]) "text" = false) := by
  refine ⟨?_, rfl, rfl⟩
  intro content off dur j h
  simp only [reconcileContent] at h
  cases hp : jsonLoadsL (candidateOf content) with
  | none =>
    rw [hp] at h
    injection h with h
    subst h
    obtain ⟨t, ws, hw⟩ :=
      reconcileFallback_shape (candidateOf content) off dur
    rw [hw]
    rfl
  | some d =>
    rw [hp] at h
    cases d with
    | obj kvs =>
      simp only [postParse] at h
      cases hwk : lookupKV kvs "words" with
      | some wv =>
        simp only [hwk] at h
        by_cases htr : pyTruthy wv = true
        · rw [if_pos htr] at h
          cases ha : adjustWords off wv with
          | none => rw [ha] at h; exact absurd h (by simp)
          | some wv2 =>
            rw [ha] at h
            injection h with h
            subst h
            simp [hasKeyJ, lookupKV_setKV_self]
        · rw [if_neg htr] at h
          exact completeParsed_hasWords h
      | none =>
        simp only [hwk] at h
        exact completeParsed_hasWords h
    | null => exact absurd h (by simp [postParse])
    | bool b => exact absurd h (by simp [postParse])
    | num q => exact absurd h (by simp [postParse])
    | nanv => exact absurd h (by simp [postParse])
    | infv n => exact absurd h (by simp [postParse])
    | str s => exact absurd h (by simp [postParse])
    | arr xs => exact absurd h (by simp [postParse])

/-- C10 witness: the universal part applied to a concrete successful
reconciliation. -/
theorem C10_results_have_words_key_witness :
    hasKeyJ (.obj [("text", .str "hello world"), ("words", .arr [])]) "words" = true :=
  C10_results_have_words_key_but_maybe_no_text.1 truncatedResp 0 none
    (.obj [("text", .str "hello world"), ("words", .arr [])]) rfl

/-- Adjusting a span with numeric `start`/`end` fields updates exactly those
two entries in place. -/
theorem adjustWord_spec {kts : List (String × Json)} {a b : ℚ} (off : ℚ)
    (hs : lookupKV kts "start" = some (.num a))
    (he : lookupKV kts "end" = some (.num b)) :
    adjustWord off (.obj kts) =
      some (.obj (setKV (setKV kts "start" (.num (a + off))) "end"
        (.num (b + off)))) := by
  have h2 : lookupKV (setKV kts "start" (.num (a + off))) "end" =
      some (.num b) := by
    rw [lookupKV_setKV_ne _ _ _ _ (by decide : ("end" : String) ≠ "start")]
    exact he
  simp only [adjustWord, hs, pyAddNum, Option.some_bind, h2]

/-- C5: reconciling a well-formed direct JSON response whose `words` array
is non-empty yields, for every offset, a result in which every span's
`start` and `end` equal the input span's value plus the offset — exact
equality — and no other field of any span is changed. -/
theorem C5_offset_applied_exactly :
    ∀ content : String, ∀ off : ℚ, ∀ dur : Option ℚ,
    ∀ kvs : List (String × Json), ∀ ws : List Json,
      jsonLoadsL (candidateOf content) = some (.obj kvs) →
      lookupKV kvs "words" = some (.arr ws) →
      ws ≠ [] →
      (∀ w ∈ ws, ∃ kts a b, w = Json.obj kts ∧
        lookupKV kts "start" = some (.num a) ∧
        lookupKV kts "end" = some (.num b)) →
      ∃ ws', reconcileContent content off dur =
          some (.obj (setKV kvs "words" (.arr ws'))) ∧
        ws'.length = ws.length ∧
        ∀ i (h1 : i < ws'.length) (h2 : i < ws.length),
          getNumKey (ws'.get ⟨i, h1⟩) "start" =
            (getNumKey (ws.get ⟨i, h2⟩) "start").map (· + off) ∧
          getNumKey (ws'.get ⟨i, h1⟩) "end" =
            (getNumKey (ws.get ⟨i, h2⟩) "end").map (· + off) ∧
          ∀ k, k ≠ "start" → k ≠ "end" →
            pyGetItem (ws'.get ⟨i, h1⟩) k = pyGetItem (ws.get ⟨i, h2⟩) k := by
  intro content off dur kvs ws hp hw hne hspans
  have hmap : ∀ w ∈ ws, ∃ w', adjustWord off w = some w' ∧
      (getNumKey w' "start" = (getNumKey w "start").map (· + off) ∧
       getNumKey w' "end" = (getNumKey w "end").map (· + off) ∧
       ∀ k, k ≠ "start" → k ≠ "end" → pyGetItem w' k = pyGetItem w k) := by
    intro w hwmem
    obtain ⟨kts, a, b, rfl, hs2, he2⟩ := hspans w hwmem
    refine ⟨_, adjustWord_spec off hs2 he2, ?_, ?_, ?_⟩
    · simp only [getNumKey, pyGetItem]
      rw [lookupKV_setKV_ne _ _ _ _ (by decide : ("start" : String) ≠ "end"),
        lookupKV_setKV_self, hs2]
      rfl
    · simp only [getNumKey, pyGetItem]
      rw [lookupKV_setKV_self, he2]
      rfl
    · intro k hk1 hk2
      simp only [pyGetItem]
      rw [lookupKV_setKV_ne _ _ _ _ hk2, lookupKV_setKV_ne _ _ _ _ hk1]
  obtain ⟨ws', hmo, hlen, hP⟩ := mapOpt_of_forall hmap
  refine ⟨ws', ?_, hlen, fun i h1 h2 => hP i h1 h2⟩
  have htr : pyTruthy (.arr ws) = true := by
    cases ws with
    | nil => exact absurd rfl hne
    | cons w l => rfl
  simp only [reconcileContent, hp, postParse, hw, htr, if_true]
  simp only [adjustWords, hmo]
  rfl

/-- C5 witness: a one-word response at offset 5 keeps exactly one span. -/
theorem C5_offset_applied_witness :
    (resultWordsOf (reconcileContent oneWordResp 5 none)).map List.length =
      some 1 := by
  obtain ⟨ws', hr, hlen, _⟩ :=
    C5_offset_applied_exactly oneWordResp 5 none oneWordKvs [oneWordSpan]
      rfl rfl (List.cons_ne_nil _ _)
      (by
        intro w hwmem
        simp only [List.mem_singleton] at hwmem
        subst hwmem
        exact ⟨[("word", .str "hi"), ("start", .num 1), ("end", .num (5 / 2))],
          1, 5 / 2, rfl, rfl, rfl⟩)
  rw [hr]
  simp only [resultWordsOf, lookupKV_setKV_self, Option.map_some']
  rw [hlen]
  rfl

/-! ## Rounding and synthesizer lemmas -/

theorem round2_mono {a b : ℚ} (h : a ≤ b) : round2 a ≤ round2 b := by
  unfold round2
  have h2 : round (a * 100) ≤ round (b * 100) := by
    rw [round_eq, round_eq]
    exact Int.floor_le_floor (by linarith)
  have h3 : ((round (a * 100) : ℤ) : ℚ) ≤ ((round (b * 100) : ℤ) : ℚ) := by
    exact_mod_cast h2
  linarith

theorem abs_round2_sub (q : ℚ) : |round2 q - q| ≤ 1 / 200 := by
  unfold round2
  have h := abs_sub_round (q * 100)
  rw [abs_sub_comm] at h
  have he : ((round (q * 100) : ℤ) : ℚ) / 100 - q =
      (((round (q * 100) : ℤ) : ℚ) - q * 100) / 100 := by ring
  rw [he, abs_div, abs_of_pos (by norm_num : (0 : ℚ) < 100)]
  linarith

theorem wordDurationOf_bounds (w : String) :
    2 / 10 ≤ wordDurationOf w ∧ wordDurationOf w ≤ 8 / 10 := by
  unfold wordDurationOf
  refine ⟨le_max_left _ _, max_le (by norm_num) (min_le_left _ _)⟩

theorem genStamps_length (off tpw : ℚ) (ws : List String) : ∀ cur : ℚ,
    (genStamps off tpw ws cur).length = ws.length := by
  induction ws with
  | nil => intro cur; rfl
  | cons w l ih => intro cur; simp [genStamps, ih]

theorem genStamps_getq (off tpw : ℚ) (ws : List String) :
    ∀ (cur : ℚ) (i : ℕ) (w : String), ws.get? i = some w →
      (genStamps off tpw ws cur).get? i =
        some ⟨w, round2 (cur + i * tpw + off),
          round2 (cur + i * tpw + wordDurationOf w + off)⟩ := by
  induction ws with
  | nil => intro cur i w hw; simp [List.get?] at hw
  | cons w0 l ih =>
    intro cur i w hw
    match i with
    | 0 =>
      simp only [List.get?] at hw
      injection hw with hw
      subst hw
      simp only [genStamps, List.get?]
      norm_num
    | i + 1 =>
      simp only [List.get?] at hw
      simp only [genStamps, List.get?]
      rw [ih (cur + tpw) i w hw]
      have h1 : cur + tpw + (i : ℚ) * tpw = cur + ((i + 1 : ℕ) : ℚ) * tpw := by
        push_cast
        ring
      rw [show cur + tpw + (i : ℚ) * tpw + off =
          cur + ((i + 1 : ℕ) : ℚ) * tpw + off by rw [h1],
        show cur + tpw + (i : ℚ) * tpw + wordDurationOf w + off =
          cur + ((i + 1 : ℕ) : ℚ) * tpw + wordDurationOf w + off by rw [h1]]

/-- C3: for every duration `D > 0` and text with at least one word token,
the synthesizer emits exactly one span per token, with non-decreasing
starts, consecutive starts spaced `D / N` within the 2-decimal rounding
error, and intra-word durations within rounding of the clamped `[0.2, 0.8]`
heuristic; with no tokens or `D ≤ 0` it returns the empty list. -/
theorem C3_synthesizer_spans (text : String) (D off : ℚ) :
    ((findallWords text).isEmpty = true ∨ D ≤ 0 →
      generate_word_timestamps text D off = []) ∧
    (0 < D → 1 ≤ (findallWords text).length →
      (generate_word_timestamps text D off).length =
        (findallWords text).length ∧
      (∀ i j si sj, i ≤ j →
        (generate_word_timestamps text D off).get? i = some si →
        (generate_word_timestamps text D off).get? j = some sj →
        si.start ≤ sj.start) ∧
      (∀ i si sj,
        (generate_word_timestamps text D off).get? i = some si →
        (generate_word_timestamps text D off).get? (i + 1) = some sj →
        |sj.start - si.start - D / ((findallWords text).length : ℚ)| ≤ 1 / 100) ∧
      (∀ s ∈ generate_word_timestamps text D off,
        2 / 10 - 1 / 100 ≤ s.stop - s.start ∧
          s.stop - s.start ≤ 8 / 10 + 1 / 100)) := by
  constructor
  · intro h
    unfold generate_word_timestamps
    rw [if_pos h]
  · intro hD hN
    have hne : ¬((findallWords text).isEmpty = true ∨ D ≤ 0) := by
      push_neg
      constructor
      · cases hw : findallWords text with
        | nil => rw [hw] at hN; exact absurd hN (by simp)
        | cons a l => simp
      · linarith
    have hgen : generate_word_timestamps text D off =
        genStamps off (D / ((findallWords text).length : ℚ))
          (findallWords text) 0 := by
      unfold generate_word_timestamps
      rw [if_neg hne]
    have hNpos : (0 : ℚ) < ((findallWords text).length : ℚ) := by
      exact_mod_cast Nat.lt_of_lt_of_le Nat.zero_lt_one hN
    have htpw : 0 < D / ((findallWords text).length : ℚ) :=
      div_pos hD hNpos
    set tpw := D / ((findallWords text).length : ℚ) with htpwdef
    have hstamp : ∀ i (si : WordStamp),
        (generate_word_timestamps text D off).get? i = some si →
        ∃ w, (findallWords text).get? i = some w ∧
          si = ⟨w, round2 (0 + i * tpw + off),
            round2 (0 + i * tpw + wordDurationOf w + off)⟩ := by
      intro i si hsi
      rw [hgen] at hsi
      have hilt : i < (findallWords text).length := by
        have h1 : i < (genStamps off tpw (findallWords text) 0).length :=
          List.get?_eq_some.mp hsi |>.1
        rw [genStamps_length] at h1
        exact h1
      obtain ⟨w, hw⟩ : ∃ w, (findallWords text).get? i = some w :=
        ⟨(findallWords text).get ⟨i, hilt⟩, List.get?_eq_get hilt⟩
      have := genStamps_getq off tpw (findallWords text) 0 i w hw
      rw [this] at hsi
      injection hsi with hsi
      exact ⟨w, hw, hsi.symm⟩
    have hlen : (generate_word_timestamps text D off).length =
        (findallWords text).length := by
      rw [hgen, genStamps_length]
    refine ⟨hlen, ?_, ?_, ?_⟩
    · intro i j si sj hij hsi hsj
      obtain ⟨wi, hwi, rfl⟩ := hstamp i si hsi
      obtain ⟨wj, hwj, rfl⟩ := hstamp j sj hsj
      apply round2_mono
      have : (i : ℚ) ≤ (j : ℚ) := by exact_mod_cast hij
      nlinarith
    · intro i si sj hsi hsj
      obtain ⟨wi, hwi, rfl⟩ := hstamp i si hsi
      obtain ⟨wj, hwj, rfl⟩ := hstamp (i + 1) sj hsj
      have h1 := abs_round2_sub (0 + ((i + 1 : ℕ) : ℚ) * tpw + off)
      have h2 := abs_round2_sub (0 + (i : ℚ) * tpw + off)
      have hy : (0 + ((i + 1 : ℕ) : ℚ) * tpw + off) =
          (0 + (i : ℚ) * tpw + off) + tpw := by
        push_cast
        ring
      have hsplit : round2 (0 + ((i + 1 : ℕ) : ℚ) * tpw + off) -
          round2 (0 + (i : ℚ) * tpw + off) - tpw =
          (round2 (0 + ((i + 1 : ℕ) : ℚ) * tpw + off) -
            (0 + ((i + 1 : ℕ) : ℚ) * tpw + off)) -
          (round2 (0 + (i : ℚ) * tpw + off) - (0 + (i : ℚ) * tpw + off)) := by
        rw [hy]
        ring
      show |round2 (0 + ((i + 1 : ℕ) : ℚ) * tpw + off) -
        round2 (0 + (i : ℚ) * tpw + off) - tpw| ≤ 1 / 100
      rw [hsplit]
      calc |_ - _| ≤ |round2 (0 + ((i + 1 : ℕ) : ℚ) * tpw + off) -
              (0 + ((i + 1 : ℕ) : ℚ) * tpw + off)| +
            |round2 (0 + (i : ℚ) * tpw + off) - (0 + (i : ℚ) * tpw + off)| :=
          abs_sub _ _
        _ ≤ 1 / 200 + 1 / 200 := add_le_add h1 h2
        _ = 1 / 100 := by norm_num
    · intro s hs
      obtain ⟨⟨i, hi⟩, hget⟩ := List.mem_iff_get.mp hs
      have hsq : (generate_word_timestamps text D off).get? i = some s := by
        rw [List.get?_eq_get hi, hget]
      obtain ⟨w, hw, rfl⟩ := hstamp i s hsq
      obtain ⟨hwd1, hwd2⟩ := wordDurationOf_bounds w
      set wd := wordDurationOf w with hwddef
      have h1 := abs_round2_sub (0 + (i : ℚ) * tpw + wd + off)
      have h2 := abs_round2_sub (0 + (i : ℚ) * tpw + off)
      have hdiff : round2 (0 + (i : ℚ) * tpw + wd + off) -
          round2 (0 + (i : ℚ) * tpw + off) - wd =
          (round2 (0 + (i : ℚ) * tpw + wd + off) -
            (0 + (i : ℚ) * tpw + wd + off)) -
          (round2 (0 + (i : ℚ) * tpw + off) - (0 + (i : ℚ) * tpw + off)) := by
        ring
      have habs : |round2 (0 + (i : ℚ) * tpw + wd + off) -
          round2 (0 + (i : ℚ) * tpw + off) - wd| ≤ 1 / 100 := by
        rw [hdiff]
        calc |_ - _| ≤ |round2 (0 + (i : ℚ) * tpw + wd + off) -
                (0 + (i : ℚ) * tpw + wd + off)| +
              |round2 (0 + (i : ℚ) * tpw + off) - (0 + (i : ℚ) * tpw + off)| :=
            abs_sub _ _
          _ ≤ 1 / 200 + 1 / 200 := add_le_add h1 h2
          _ = 1 / 100 := by norm_num
      have hub := abs_le.mp habs
      constructor
      · simp only []
        linarith [hub.1]
      · simp only []
        linarith [hub.2]

/-- C3 witness: `"hello world"` at duration 2 has exactly two spans. -/
theorem C3_synthesizer_spans_witness :
    (0 : ℚ) < 2 ∧ (generate_word_timestamps "hello world" 2 0).length =
      (findallWords "hello world").length :=
  ⟨by norm_num,
    ((C3_synthesizer_spans "hello world" 2 0).2 (by norm_num)
      (by show 1 ≤ (["hello", "world"] : List String).length; decide)).1⟩

/-! ## Span invariant lemmas (C7) -/

theorem endOKB_elim {w : Json} (h : endOKB w = true) :
    ∃ kts a b, w = Json.obj kts ∧ lookupKV kts "start" = some (.num a) ∧
      lookupKV kts "end" = some (.num b) ∧ a ≤ b := by
  cases w with
  | obj kts =>
    simp only [endOKB, getNumKey, pyGetItem] at h
    cases hs : lookupKV kts "start" with
    | none => simp only [hs] at h; exact absurd h (by decide)
    | some v =>
      simp only [hs] at h
      cases v with
      | num a =>
        cases he : lookupKV kts "end" with
        | none => simp only [he] at h; exact absurd h (by decide)
        | some v2 =>
          simp only [he] at h
          cases v2 with
          | num b => exact ⟨kts, a, b, rfl, hs, he, of_decide_eq_true h⟩
          | null => simp at h
          | bool b => simp at h
          | nanv => simp at h
          | infv n => simp at h
          | str s => simp at h
          | arr xs => simp at h
          | obj kvs => simp at h
      | null => simp at h
      | bool b => simp at h
      | nanv => simp at h
      | infv n => simp at h
      | str s => simp at h
      | arr xs => simp at h
      | obj kvs => simp at h
  | null => simp [endOKB, getNumKey, pyGetItem] at h
  | bool b => simp [endOKB, getNumKey, pyGetItem] at h
  | num q => simp [endOKB, getNumKey, pyGetItem] at h
  | nanv => simp [endOKB, getNumKey, pyGetItem] at h
  | infv n => simp [endOKB, getNumKey, pyGetItem] at h
  | str s => simp [endOKB, getNumKey, pyGetItem] at h
  | arr xs => simp [endOKB, getNumKey, pyGetItem] at h

theorem adjustWord_num_fields {off : ℚ} {w w' : Json}
    (hadj : adjustWord off w = some w') (hok : endOKB w = true) :
    ∃ a b, getNumKey w "start" = some a ∧ getNumKey w "end" = some b ∧
      a ≤ b ∧ getNumKey w' "start" = some (a + off) ∧
      getNumKey w' "end" = some (b + off) := by
  obtain ⟨kts, a, b, rfl, hs, he, hab⟩ := endOKB_elim hok
  rw [adjustWord_spec off hs he] at hadj
  injection hadj with hadj
  subst hadj
  refine ⟨a, b, ?_, ?_, hab, ?_, ?_⟩
  · simp only [getNumKey, pyGetItem, hs]
  · simp only [getNumKey, pyGetItem, he]
  · simp only [getNumKey, pyGetItem]
    rw [lookupKV_setKV_ne _ _ _ _ (by decide : ("start" : String) ≠ "end"),
      lookupKV_setKV_self]
  · simp only [getNumKey, pyGetItem]
    rw [lookupKV_setKV_self]

theorem endOKB_of_nums {w : Json} {a b : ℚ}
    (hs : getNumKey w "start" = some a) (he : getNumKey w "end" = some b)
    (hab : a ≤ b) : endOKB w = true := by
  simp only [endOKB, hs, he]
  exact decide_eq_true hab

theorem startLeB_of_nums {w1 w2 : Json} {a1 a2 : ℚ}
    (h1 : getNumKey w1 "start" = some a1) (h2 : getNumKey w2 "start" = some a2)
    (hle : a1 ≤ a2) : startLeB w1 w2 = true := by
  simp only [startLeB, h1, h2]
  exact decide_eq_true hle

theorem startLeB_elim {w1 w2 : Json} {a1 a2 : ℚ}
    (h1 : getNumKey w1 "start" = some a1) (h2 : getNumKey w2 "start" = some a2)
    (hst : startLeB w1 w2 = true) : a1 ≤ a2 := by
  simp only [startLeB, h1, h2] at hst
  exact of_decide_eq_true hst

theorem genStamps_inv (off tpw : ℚ) (htpw : 0 ≤ tpw) : ∀ (ws : List String)
    (cur : ℚ), spansInvB ((genStamps off tpw ws cur).map stampToJson) = true := by
  intro ws
  induction ws with
  | nil => intro cur; rfl
  | cons w l ih =>
    intro cur
    obtain ⟨hwd1, _⟩ := wordDurationOf_bounds w
    have hend : endOKB (stampToJson ⟨w, round2 (cur + off),
        round2 (cur + wordDurationOf w + off)⟩) = true := by
      show decide (round2 (cur + off) ≤ round2 (cur + wordDurationOf w + off)) =
        true
      exact decide_eq_true (round2_mono (by linarith))
    cases l with
    | nil => exact hend
    | cons w2 l2 =>
      show (endOKB (stampToJson ⟨w, round2 (cur + off),
          round2 (cur + wordDurationOf w + off)⟩) &&
        startLeB (stampToJson ⟨w, round2 (cur + off),
          round2 (cur + wordDurationOf w + off)⟩)
          (stampToJson ⟨w2, round2 (cur + tpw + off),
            round2 (cur + tpw + wordDurationOf w2 + off)⟩) &&
        spansInvB ((genStamps off tpw (w2 :: l2) (cur + tpw)).map stampToJson)) =
        true
      rw [Bool.and_eq_true, Bool.and_eq_true]
      refine ⟨⟨hend, ?_⟩, ih (cur + tpw)⟩
      show decide (round2 (cur + off) ≤ round2 (cur + tpw + off)) = true
      exact decide_eq_true (round2_mono (by linarith))

/-- C7 (amended): synthesized spans always satisfy the §3 invariant
(non-decreasing `start`, `end ≥ start`); the offset-adjustment loop
preserves the invariant when the parsed spans already satisfy it; and a
merge of invariant-satisfying word lists satisfies it when the segment
boundary is ordered.  (The pipeline does not *enforce* the invariant on
API-returned spans — see the counterexample, where a response with
decreasing `start` values flows through unchanged.) -/
theorem C7_invariant_of_produced_spans :
    (∀ (t : String) (D off : ℚ),
      spansInvB ((generate_word_timestamps t D off).map stampToJson) = true) ∧
    (∀ (off : ℚ) (ws ws' : List Json), mapOpt (adjustWord off) ws = some ws' →
      spansInvB ws = true → spansInvB ws' = true) ∧
    (∀ ws1 ws2 : List Json, spansInvB ws1 = true → spansInvB ws2 = true →
      (∀ w1 w2, ws1.getLast? = some w1 → ws2.head? = some w2 →
        startLeB w1 w2 = true) →
      spansInvB (ws1 ++ ws2) = true) := by
  refine ⟨?_, ?_, ?_⟩
  · intro t D off
    by_cases hc : (findallWords t).isEmpty = true ∨ D ≤ 0
    · unfold generate_word_timestamps
      rw [if_pos hc]
      rfl
    · unfold generate_word_timestamps
      rw [if_neg hc]
      push_neg at hc
      apply genStamps_inv
      exact div_nonneg (by linarith [hc.2]) (Nat.cast_nonneg _)
  · intro off ws
    induction ws with
    | nil =>
      intro ws' hmo _
      simp only [mapOpt] at hmo
      injection hmo with hmo
      subst hmo
      rfl
    | cons w rest ih =>
      intro ws' hmo hinv
      obtain ⟨w', rest', hw, hrest, rfl⟩ := mapOpt_cons_inv hmo
      cases rest with
      | nil =>
        simp only [mapOpt] at hrest
        injection hrest with hrest
        subst hrest
        have hok : endOKB w = true := hinv
        obtain ⟨a, b, _, _, hab, hs', he'⟩ := adjustWord_num_fields hw hok
        exact endOKB_of_nums hs' he' (by linarith)
      | cons w2 rest2 =>
        obtain ⟨w2', rest2', hw2, hrest2, rfl⟩ := mapOpt_cons_inv hrest
        have hinv1 : endOKB w = true := by
          have := hinv
          show _
          rw [show spansInvB (w :: w2 :: rest2) = (endOKB w && startLeB w w2 &&
            spansInvB (w2 :: rest2)) from rfl] at this
          rw [Bool.and_eq_true, Bool.and_eq_true] at this
          exact this.1.1
        have hinv2 : startLeB w w2 = true := by
          have := hinv
          rw [show spansInvB (w :: w2 :: rest2) = (endOKB w && startLeB w w2 &&
            spansInvB (w2 :: rest2)) from rfl] at this
          rw [Bool.and_eq_true, Bool.and_eq_true] at this
          exact this.1.2
        have hinv3 : spansInvB (w2 :: rest2) = true := by
          have := hinv
          rw [show spansInvB (w :: w2 :: rest2) = (endOKB w && startLeB w w2 &&
            spansInvB (w2 :: rest2)) from rfl] at this
          rw [Bool.and_eq_true, Bool.and_eq_true] at this
          exact this.2
        have hok2 : endOKB w2 = true := by
          cases rest2 with
          | nil => exact hinv3
          | cons w3 rest3 =>
            rw [show spansInvB (w2 :: w3 :: rest3) = (endOKB w2 &&
              startLeB w2 w3 && spansInvB (w3 :: rest3)) from rfl] at hinv3
            rw [Bool.and_eq_true, Bool.and_eq_true] at hinv3
            exact hinv3.1.1
        obtain ⟨a1, b1, hs1, _, hab1, hs1', he1'⟩ :=
          adjustWord_num_fields hw hinv1
        obtain ⟨a2, b2, hs2, _, _, hs2', _⟩ :=
          adjustWord_num_fields hw2 hok2
        have htail : spansInvB (w2' :: rest2') = true := by
          apply ih (w2' :: rest2') _ hinv3
          simp only [mapOpt, hw2, hrest2]
        rw [show spansInvB (w' :: w2' :: rest2') = (endOKB w' &&
          startLeB w' w2' && spansInvB (w2' :: rest2')) from rfl]
        rw [Bool.and_eq_true, Bool.and_eq_true]
        refine ⟨⟨endOKB_of_nums hs1' he1' (by linarith), ?_⟩, htail⟩
        have hle : a1 ≤ a2 := startLeB_elim hs1 hs2 hinv2
        exact startLeB_of_nums hs1' hs2' (by linarith)
  · intro ws1
    induction ws1 with
    | nil =>
      intro ws2 _ h2 _
      simpa using h2
    | cons w rest ih =>
      intro ws2 h1 h2 hb
      cases rest with
      | nil =>
        cases ws2 with
        | nil => simpa using h1
        | cons w2 l2 =>
          show (endOKB w && startLeB w w2 && spansInvB (w2 :: l2)) = true
          rw [Bool.and_eq_true, Bool.and_eq_true]
          exact ⟨⟨h1, hb w w2 rfl rfl⟩, h2⟩
      | cons wB restB =>
        rw [show spansInvB (w :: wB :: restB) = (endOKB w && startLeB w wB &&
          spansInvB (wB :: restB)) from rfl] at h1
        rw [Bool.and_eq_true, Bool.and_eq_true] at h1
        have htail : spansInvB ((wB :: restB) ++ ws2) = true := by
          apply ih ws2 h1.2 h2
          intro w1 w2 hl hh
          apply hb w1 w2 _ hh
          rw [← hl]
          exact List.getLast?_cons_cons
        show (endOKB w && startLeB w wB &&
          spansInvB ((wB :: restB) ++ ws2)) = true
        rw [Bool.and_eq_true, Bool.and_eq_true]
        exact ⟨h1.1, htail⟩

/-- C7 counterexample: the claim as stated — *every* pipeline result
satisfies the invariant — is false: a parseable response whose spans have
decreasing `start` values is returned as-is (offset-adjusted only), and its
`words` violate the invariant. -/
theorem C7_counterexample_unsorted_spans :
    (resultWordsOf (reconcileContent decreasingResp 0 none)).map spansInvB =
      some false := rfl

/-- C7 witness: the boundary-ordered merge of two singleton span lists
satisfies the invariant. -/
theorem C7_invariant_witness :
    spansInvB ([Json.obj [("word", .str "a"), ("start", .num 0),
        ("end", .num 1)]] ++
      [Json.obj [("word", .str "b"), ("start", .num 2), ("end", .num 3)]]) =
      true :=
  C7_invariant_of_produced_spans.2.2
    [Json.obj [("word", .str "a"), ("start", .num 0), ("end", .num 1)]]
    [Json.obj [("word", .str "b"), ("start", .num 2), ("end", .num 3)]]
    rfl rfl
    (by
      intro w1 w2 hl hh
      injection hl with hl
      injection hh with hh
      subst hl
      subst hh
      rfl)

/-! ## Orchestrator merge lemmas (C1, C6, C8) -/

theorem mergeChunks_eq_mergeResults (l : ℚ) : ∀ (chunks : List ChunkCall) (i : ℕ),
    mergeChunks l chunks i = mergeResults (chunkResultsFrom l chunks i) := by
  intro chunks
  induction chunks with
  | nil => intro i; rfl
  | cons c rest ih =>
    intro i
    simp only [mergeChunks, chunkResultsFrom, mergeResults, ih (i + 1)]
    cases chunkContrib (transcribe_audio_chunk c ((i : ℚ) * l)) with
    | none => rfl
    | some p =>
      cases mergeResults (chunkResultsFrom l rest (i + 1)) with
      | none => rfl
      | some p2 => rfl

theorem chunkContrib_wf {r : Option Json} (h : resultWF r) :
    chunkContrib r = some ((successTextOf r).map Json.str, successWordsOf r) := by
  cases r with
  | none => rfl
  | some j =>
    obtain ⟨kvs, t, ws, rfl, hne, ht, hw⟩ := h
    have hkvs : kvs.isEmpty = false := by
      cases kvs with
      | nil => exact absurd rfl hne
      | cons a l2 => rfl
    have htr : pyTruthy (.obj kvs) = true := by
      simp [pyTruthy, hkvs]
    simp only [chunkContrib, htr, if_true, pyContains, hw, ht, Option.isSome_some,
      pyGetItem, pyExtendVal, successTextOf, successWordsOf, hkvs,
      Bool.false_eq_true, if_false, List.map_cons, List.map_nil]

theorem mergeResults_wf : ∀ rs : List (Option Json), (∀ r ∈ rs, resultWF r) →
    mergeResults rs =
      some ((catMap successTextOf rs).map Json.str, catMap successWordsOf rs) := by
  intro rs
  induction rs with
  | nil => intro _; rfl
  | cons r rest ih =>
    intro h
    have hr := chunkContrib_wf (h r (List.mem_cons_self r rest))
    have hrest := ih (fun x hx => h x (List.mem_cons_of_mem r hx))
    simp only [mergeResults, hr, hrest, catMap, List.map_append]

theorem chunkResultsFrom_forall {P : Option Json → Prop} (l : ℚ) :
    ∀ (chunks : List ChunkCall) (i : ℕ),
      (∀ k (h : k < chunks.length),
        P (transcribe_audio_chunk (chunks.get ⟨k, h⟩) (((i + k : ℕ) : ℚ) * l))) →
      ∀ r ∈ chunkResultsFrom l chunks i, P r := by
  intro chunks
  induction chunks with
  | nil => intro i _ r hr; simp [chunkResultsFrom] at hr
  | cons c rest ih =>
    intro i h r hr
    simp only [chunkResultsFrom, List.mem_cons] at hr
    cases hr with
    | inl he =>
      subst he
      have h0 := h 0 (by simp)
      rw [show i + 0 = i from rfl] at h0
      exact h0
    | inr hm =>
      refine ih (i + 1) (fun k hk => ?_) r hm
      have hk2 : k + 1 < (c :: rest).length := by simpa using Nat.succ_lt_succ hk
      have := h (k + 1) hk2
      rw [show i + (k + 1) = i + 1 + k by omega] at this
      exact this

/-- C6: the orchestrator's merged result joins the successful segments'
`text` fields with single spaces in index order and concatenates their
`words` in the same order; a segment whose transcription failed contributes
nothing, and the pipeline continues over the remaining segments. -/
theorem C6_merge_in_index_order :
    ∀ (fs : ℕ) (whole : ChunkCall) (chunks : List ChunkCall) (l : ℚ),
      fs > 5 * 1024 * 1024 → chunks ≠ [] →
      (∀ k (h : k < chunks.length),
        resultWF (transcribe_audio_chunk (chunks.get ⟨k, h⟩) ((k : ℚ) * l))) →
      transcribe_audio_with_timestamps fs whole chunks l =
        some (.obj
          [("text", .str (joinSpace (catMap successTextOf (chunkResults chunks l)))),
           ("words", .arr (catMap successWordsOf (chunkResults chunks l)))]) := by
  intro fs whole chunks l hfs hch hwf
  have hwf2 : ∀ r ∈ chunkResultsFrom l chunks 0, resultWF r := by
    refine chunkResultsFrom_forall l chunks 0 (fun k h => ?_)
    rw [show ((0 + k : ℕ) : ℚ) = (k : ℚ) by push_cast; ring]
    exact hwf k h
  have hmr := mergeResults_wf (chunkResultsFrom l chunks 0) hwf2
  have hje : ∀ ts : List String, joinTexts (ts.map Json.str) = some (joinSpace ts) := by
    intro ts
    have hmo : mapOpt (fun j => match j with | Json.str s => some s | _ => none)
        (ts.map Json.str) = some ts := by
      induction ts with
      | nil => rfl
      | cons s rest ih2 => simp only [List.map_cons, mapOpt, ih2]
    simp only [joinTexts, hmo, Option.map_some']
  have hemp : chunks.isEmpty = false := by
    cases chunks with
    | nil => exact absurd rfl hch
    | cons a l2 => rfl
  simp only [transcribe_audio_with_timestamps, if_pos hfs, hemp,
    Bool.false_eq_true, if_false, mergeChunks_eq_mergeResults, hmr,
    hje (catMap successTextOf (chunkResultsFrom l chunks 0)), chunkResults]

/-- C6 witness: if the third of four segments fails, the merged artifact
holds exactly the other three segments' text and words, in order. -/
theorem C6_merge_in_index_order_witness :
    transcribe_audio_with_timestamps (6 * 1024 * 1024) failingChunk
      [chunkRespA, chunkRespB, failingChunk, chunkRespA] 300 =
    some (.obj [("text", .str "a b a"),
      ("words", .arr
        [.obj [("word", .str "a"), ("start", .num 0), ("end", .num (1 / 2))],
         .obj [("word", .str "b"), ("start", .num 300), ("end", .num (1502 / 5))],
         .obj [("word", .str "a"), ("start", .num 900), ("end", .num (1801 / 2))]])]) := by
  have h := C6_merge_in_index_order (6 * 1024 * 1024) failingChunk
    [chunkRespA, chunkRespB, failingChunk, chunkRespA] 300
    (by norm_num) (by simp)
    (by
      intro k h
      simp only [List.length_cons, List.length_nil] at h
      interval_cases k
      · exact ⟨_, _, _, rfl, List.cons_ne_nil _ _, rfl, rfl⟩
      · exact ⟨_, _, _, rfl, List.cons_ne_nil _ _, rfl, rfl⟩
      · exact trivial
      · exact ⟨_, _, _, rfl, List.cons_ne_nil _ _, rfl, rfl⟩)
  exact h.trans rfl

theorem mergeChunks_all_none (l : ℚ) : ∀ (chunks : List ChunkCall) (i : ℕ),
    (∀ k (h : k < chunks.length),
      transcribe_audio_chunk (chunks.get ⟨k, h⟩) (((i + k : ℕ) : ℚ) * l) = none) →
    mergeChunks l chunks i = some ([], []) := by
  intro chunks
  induction chunks with
  | nil => intro i _; rfl
  | cons c rest ih =>
    intro i h
    have h0 := h 0 (by simp)
    rw [show i + 0 = i from rfl] at h0
    have hrest : mergeChunks l rest (i + 1) = some ([], []) := by
      refine ih (i + 1) (fun k hk => ?_)
      have hk2 : k + 1 < (c :: rest).length := by simpa using Nat.succ_lt_succ hk
      have := h (k + 1) hk2
      rw [show i + (k + 1) = i + 1 + k by omega] at this
      exact this
    have h0c : transcribe_audio_chunk c ((i : ℚ) * l) = none := h0
    simp only [mergeChunks, h0c, chunkContrib, hrest, List.nil_append]

/-- C1 (amended): when a multi-segment input's segments all fail, the
orchestrator still merges — producing `{"text": "", "words": []}` — and
writes that artifact (reporting success); only for a single-segment
(non-split) input does the sole call's failure become the function's
failure, returning `None` with no artifact.  (The original claim — no
artifact on multi-segment all-fail — is contradicted by the
counterexample.) -/
theorem C1_all_failed_segments :
    (∀ (fs : ℕ) (whole : ChunkCall) (chunks : List ChunkCall) (l : ℚ),
      fs > 5 * 1024 * 1024 → chunks ≠ [] →
      (∀ k (h : k < chunks.length),
        transcribe_audio_chunk (chunks.get ⟨k, h⟩) ((k : ℚ) * l) = none) →
      transcribe_audio_with_timestamps fs whole chunks l =
        some (.obj [("text", .str ""), ("words", .arr [])])) ∧
    (∀ (fs : ℕ) (whole : ChunkCall) (chunks : List ChunkCall) (l : ℚ),
      fs ≤ 5 * 1024 * 1024 → transcribe_audio_chunk whole 0 = none →
      transcribe_audio_with_timestamps fs whole chunks l = none) := by
  constructor
  · intro fs whole chunks l hfs hch hfail
    have hmc : mergeChunks l chunks 0 = some ([], []) := by
      refine mergeChunks_all_none l chunks 0 (fun k h => ?_)
      rw [show ((0 + k : ℕ) : ℚ) = (k : ℚ) by push_cast; ring]
      exact hfail k h
    have hemp : chunks.isEmpty = false := by
      cases chunks with
      | nil => exact absurd rfl hch
      | cons a l2 => rfl
    simp only [transcribe_audio_with_timestamps, if_pos hfs, hemp,
      Bool.false_eq_true, if_false, hmc]
    rfl
  · intro fs whole chunks l hfs hnone
    have hngt : ¬ fs > 5 * 1024 * 1024 := Nat.not_lt.mpr hfs
    simp only [transcribe_audio_with_timestamps, if_neg hngt, hnone]

/-- C1 counterexample: a 6 MiB input split into two segments, both failing
the remote call, still produces a JSON artifact with the empty merged
result — the orchestrator does not report overall failure. -/
theorem C1_counterexample_empty_artifact :
    transcribe_audio_with_timestamps (6 * 1024 * 1024) failingChunk
      [failingChunk, failingChunk] 300 =
    some (.obj [("text", .str ""), ("words", .arr [])]) := rfl

/-- C1 witness: the single-segment case — the sole call's failure is the
function's failure, no artifact. -/
theorem C1_all_failed_segments_witness :
    transcribe_audio_with_timestamps 1000 failingChunk [] 300 = none :=
  C1_all_failed_segments.2 1000 failingChunk [] 300 (by norm_num) rfl

/-- C8: the orchestrator segments the input iff its size exceeds 5 MiB
(`5 * 1024 * 1024` bytes); when segmented, segment `i` is transcribed with
offset `i * chunk_duration` (spelled out by `chunkResults`); otherwise the
whole file is transcribed as a single segment with offset `0`. -/
theorem C8_segmentation_threshold_and_offsets :
    (∀ (fs : ℕ) (whole : ChunkCall) (chunks : List ChunkCall) (l : ℚ),
      fs ≤ 5 * 1024 * 1024 →
      transcribe_audio_with_timestamps fs whole chunks l =
        (match transcribe_audio_chunk whole 0 with
        | none => none
        | some j => if pyTruthy j then some j else none)) ∧
    (∀ (fs : ℕ) (whole : ChunkCall) (chunks : List ChunkCall) (l : ℚ),
      fs > 5 * 1024 * 1024 → chunks ≠ [] →
      transcribe_audio_with_timestamps fs whole chunks l =
        (match mergeResults (chunkResults chunks l) with
        | none => none
        | some (parts, ws) =>
          match joinTexts parts with
          | none => none
          | some t => some (.obj [("text", .str t), ("words", .arr ws)]))) := by
  constructor
  · intro fs whole chunks l hfs
    have hngt : ¬ fs > 5 * 1024 * 1024 := Nat.not_lt.mpr hfs
    simp only [transcribe_audio_with_timestamps, if_neg hngt]
  · intro fs whole chunks l hfs hch
    have hemp : chunks.isEmpty = false := by
      cases chunks with
      | nil => exact absurd rfl hch
      | cons a l2 => rfl
    simp only [transcribe_audio_with_timestamps, if_pos hfs, hemp,
      Bool.false_eq_true, if_false, mergeChunks_eq_mergeResults, chunkResults]

/-- C8 witness: a small input is transcribed whole, at offset 0. -/
theorem C8_segmentation_threshold_witness :
    transcribe_audio_with_timestamps 1000 chunkRespA [] 300 =
      some (.obj [("text", .str "a"),
        ("words", .arr [.obj [("word", .str "a"), ("start", .num 0),
          ("end", .num (1 / 2))]])]) :=
  (C8_segmentation_threshold_and_offsets.1 1000 chunkRespA [] 300
    (by norm_num)).trans rfl

/-! ## Segmenter lemmas (C9) -/

theorem splitLoop_go (extract : ℕ → ℕ → ExtractOutcome) (d : ℕ) :
    ∀ (k i fuel : ℕ),
      (∀ j, j < k → goodAt extract d (i + j)) → ¬ goodAt extract d (i + k) →
      k < fuel →
      splitLoop extract d fuel i (i * d) =
        ((List.range k).map (fun j => (i + j, (i + j) * d)),
          stopOutcome (extract (i + k) ((i + k) * d))) := by
  intro k
  induction k with
  | zero =>
    intro i fuel _ hbad hf
    match fuel, hf with
    | f + 1, _ =>
      rw [show i + 0 = i from rfl] at hbad
      simp only [splitLoop, List.range_zero, List.map_nil]
      rw [show i + 0 = i from rfl]
      by_cases hs : (extract i (i * d)).success = true
      · rw [if_pos hs]
        have hps : ¬((extract i (i * d)).present = true ∧
            (extract i (i * d)).size > 0) := by
          intro hps
          exact hbad ⟨hs, hps.1, hps.2⟩
        rw [if_neg hps]
        simp only [stopOutcome, if_pos hs]
      · rw [if_neg hs]
        simp only [stopOutcome, if_neg hs]
  | succ k ih =>
    intro i fuel hgood hbad hf
    match fuel, hf with
    | f + 1, hf =>
      have h0 := hgood 0 (Nat.succ_pos k)
      rw [show i + 0 = i from rfl] at h0
      simp only [splitLoop]
      rw [if_pos h0.1, if_pos ⟨h0.2.1, h0.2.2⟩]
      have hstart : i * d + d = (i + 1) * d := by ring
      have hih : splitLoop extract d f (i + 1) ((i + 1) * d) =
          ((List.range k).map (fun j => (i + 1 + j, (i + 1 + j) * d)),
            stopOutcome (extract (i + 1 + k) ((i + 1 + k) * d))) := by
        refine ih (i + 1) f (fun j hj => ?_) ?_ (Nat.lt_of_succ_lt_succ hf)
        · have := hgood (j + 1) (Nat.succ_lt_succ hj)
          rw [show i + (j + 1) = i + 1 + j by omega] at this
          exact this
        · rw [show i + 1 + k = i + (k + 1) by omega]
          exact hbad
      rw [hstart, hih]
      rw [Prod.mk.injEq]
      constructor
      · rw [List.range_succ_eq_map, List.map_cons, List.map_map]
        rw [show i + 0 = i from rfl]
        congr 1
        apply List.map_congr_left
        intro j _
        simp only [Function.comp]
        rw [show i + (j + 1) = i + 1 + j by omega]
      · rw [show i + (k + 1) = i + 1 + k by omega]

/-- C9 (amended): the segmenter extracts segment `i` at start `i * length`,
stops at the first index whose extraction yields no non-empty file, and
returns exactly the earlier segments in index order.  The terminal artifact
is removed only when the extraction subprocess *failed*; when extraction
exits 0 but the file is missing or empty, the loop breaks and a present
zero-byte file is left in place (contradicting the claim's "discards that
terminal artifact" — see the counterexample). -/
theorem C9_segmenter_stops_at_first_empty :
    ∀ (extract : ℕ → ℕ → ExtractOutcome) (d fuel k : ℕ),
      (∀ j, j < k → goodAt extract d j) → ¬ goodAt extract d k → k < fuel →
      split_audio_into_chunks extract d fuel =
        ((List.range k).map (fun j => (j, j * d)),
          stopOutcome (extract k (k * d))) := by
  intro extract d fuel k hgood hbad hf
  have h := splitLoop_go extract d k 0 fuel
    (fun j hj => by simpa using hgood j hj)
    (by simpa using hbad) hf
  rw [show (0 : ℕ) * d = 0 from Nat.zero_mul d] at h
  unfold split_audio_into_chunks
  rw [h]
  rw [Prod.mk.injEq]
  constructor
  · apply List.map_congr_left
    intro j _
    rw [Nat.zero_add]
  · rw [Nat.zero_add]

/-- C9 counterexample: extraction of segment 1 exits 0 but produces a
zero-byte file that exists on disk; the loop breaks and the terminal
artifact is *not* removed, contradicting "discards (deletes) that terminal
artifact". -/
theorem C9_counterexample_artifact_left :
    split_audio_into_chunks exEmptySecond 300 5 =
        ([(0, 0)], .emptyBreak true 0) ∧
      terminalRemoved (split_audio_into_chunks exEmptySecond 300 5).2 = false :=
  ⟨rfl, rfl⟩

/-- C9 witness: the amended theorem applied to the concrete oracle. -/
theorem C9_segmenter_witness :
    split_audio_into_chunks exEmptySecond 300 5 =
      ((List.range 1).map (fun j => (j, j * 300)),
        stopOutcome (exEmptySecond 1 (1 * 300))) :=
  C9_segmenter_stops_at_first_empty exEmptySecond 300 5 1
    (by intro j hj; interval_cases j; exact ⟨rfl, rfl, by decide⟩)
    (by intro hg; exact absurd hg.2.2 (by decide))
    (by norm_num)

end VideoTrim
